import Mathlib

/-!
Verification of `pdf_compression.py` (RhemJos/PDFcompression).

Shallow embedding: the external `ocrmypdf` invocation is modelled as a
deterministic oracle `env : Int → CmdResult` mapping a jpeg-quality value to
the outcome of running the command at that quality (exit 0 with an output
file of a given byte size, nonzero exit, or command-not-found).  File sizes
are natural numbers of bytes; the target `target_size_mb * 1024 * 1024`
comparison of line 46 is exact for the default 1.5 MB (1572864 bytes), so the
target is carried as a byte count `targetBytes`.  Modification times are
integers.  Writes to the final output path are recorded as an ordered list of
events, distinguishing the `shutil.move` rename of line 47 from the direct
write of the best-effort invocation (line 104).
-/

/-- Outcome of one synchronous invocation of the external compression command
at a given quality: exit status 0 together with the byte size of the file it
produced, a nonzero exit (`subprocess.CalledProcessError`), or the command
missing from the PATH (`FileNotFoundError`). -/
inductive CmdResult where
  | ok (size : Nat)
  | fail
  | notFound
deriving DecidableEq, Repr

/-- A write to the final output path: either the atomic `shutil.move` of the
temporary file (line 47) or a direct write by the external command invoked
with the final path as destination (line 104). -/
inductive OutputEvent where
  | renamed (size : Nat)
  | written (size : Nat)
deriving DecidableEq, Repr

/-- Whether an output event is the atomic rename of the temporary file. -/
def OutputEvent.isRenamed : OutputEvent → Bool
  | .renamed _ => true
  | .written _ => false

/-- How the `while current_quality >= min_quality` loop of lines 26-79 ended:
`brokeSuccess` is the `break` of line 49 after the move to the output path,
`exhausted` is the loop condition failing, `toolMissing` is the
`FileNotFoundError` handler of lines 74-76 returning `False` at once. -/
inductive LoopOutcome where
  | brokeSuccess (size : Nat)
  | exhausted
  | toolMissing
deriving DecidableEq, Repr

/-- State returned by the quality loop: the qualities actually passed to the
external command in order, the `(best_quality_so_far, min_size_so_far)` pair
(`none` encodes the initial `-1` / `float('inf')` of lines 16-17), and how
the loop ended. -/
structure LoopState where
  invocations : List Int
  best : Option (Int × Nat)
  outcome : LoopOutcome
deriving DecidableEq, Repr

/-- Lines 58-60: `if current_size < min_size_so_far:` update the pair
`(best_quality_so_far, min_size_so_far)`; with the initial `-1`/infinity any
first oversized size is recorded. -/
def updBest (best : Option (Int × Nat)) (q : Int) (size : Nat) :
    Option (Int × Nat) :=
  match best with
  | none => some (q, size)
  | some (bq, bs) => if size < bs then some (q, size) else some (bq, bs)

/-- The descending quality sequence visited by
`while current_quality >= min_quality: ... current_quality -= 5`
when nothing interrupts the loop, starting at `q`. -/
def qualities (minq q : Int) : List Int :=
  if q < minq then [] else q :: qualities minq (q - 5)
termination_by (q + 5 - minq).toNat
decreasing_by omega

/-- The quality loop of lines 26-79 of `compress_pdf`.  At each quality the
command runs once (line 43); on exit 0 the temporary file's size is compared
with the target (line 46): small enough moves it to the output path and
breaks (lines 47-49), oversized updates the best pair, deletes the temporary
file and decrements the quality (lines 58-63); a nonzero exit deletes the
temporary file, decrements the quality and continues (lines 65-73); a missing
command aborts at once (lines 74-76). -/
def runLoop (env : Int → CmdResult) (targetBytes : Nat) (minq q : Int)
    (best : Option (Int × Nat)) : LoopState :=
  if q < minq then ⟨[], best, .exhausted⟩
  else
    match env q with
    | .ok size =>
        if size ≤ targetBytes then ⟨[q], best, .brokeSuccess size⟩
        else
          let r := runLoop env targetBytes minq (q - 5) (updBest best q size)
          ⟨q :: r.invocations, r.best, r.outcome⟩
    | .fail =>
        let r := runLoop env targetBytes minq (q - 5) best
        ⟨q :: r.invocations, r.best, r.outcome⟩
    | .notFound => ⟨[q], best, .toolMissing⟩
termination_by (q + 5 - minq).toNat
decreasing_by all_goals omega

/-- Hundredths of a megabyte for the `:.2f` rendering of
`st_size/1024/1024`, by rounding `bytes * 100 / 1048576` to the nearest
integer with ties to even, the rounding Python applies (exact on values that
are not floating-point borderline cases). -/
def mbHundredths (bytes : Nat) : Nat :=
  let num := bytes * 100
  let q := num / 1048576
  let r := num % 1048576
  if 1048576 < 2 * r then q + 1
  else if 2 * r < 1048576 then q
  else if q % 2 = 0 then q else q + 1

/-- Renders hundredths of a megabyte with exactly two decimals. -/
def formatMB2 (hundredths : Nat) : String :=
  toString (hundredths / 100) ++ "." ++
    (if hundredths % 100 < 10 then "0" else "") ++ toString (hundredths % 100)

/-- The line appended to `failures.log` by line 109:
`f"{input_path} - Compressed to {output_path.stat().st_size/1024/1024:.2f} MB
(target: {target_size_mb} MB) (Best Effort)\n"`. -/
def bestEffortLine (inputPath : String) (sizeBytes : Nat) (targetStr : String) :
    String :=
  inputPath ++ " - Compressed to " ++ formatMB2 (mbHundredths sizeBytes) ++
    " MB (target: " ++ targetStr ++ " MB) (Best Effort)\n"

/-- Observable result of one `compress_pdf` job: the returned boolean, the
qualities passed to the external command in order (loop attempts, then the
possible best-effort re-invocation), the writes to the final output path in
order, and the lines appended to `failures.log`. -/
structure CompressResult where
  retval : Bool
  invocations : List Int
  outputs : List OutputEvent
  logLines : List String
deriving DecidableEq, Repr

/-- Lines 96-121 of `compress_pdf`, the code after the loop, entered with the
loop's best pair.  `final_success` is the value of that variable there: it is
initialised `False` at line 18 and never reassigned (line 48 assigns the
distinct, dead variable `success`), so every reachable path enters with
`final_success = false`.  When the best pair is set, the command is re-invoked
at `best_quality_so_far` writing directly to the final output path
(lines 99-106), the best-effort line is appended and `True` returned
(lines 108-110); a nonzero exit or other exception returns `False`
(lines 111-116); with no best pair recorded, `False` is returned
(lines 117-119); otherwise `final_success` itself is returned (line 121). -/
def postLoop (env : Int → CmdResult) (inputPath : String)
    (targetStr : String) (final_success : Bool) (best : Option (Int × Nat))
    (invs : List Int) (outs : List OutputEvent) : CompressResult :=
  match final_success, best with
  | false, some (bq, _) =>
      match env bq with
      | .ok s2 => ⟨true, invs ++ [bq], outs ++ [.written s2],
                   [bestEffortLine inputPath s2 targetStr]⟩
      | .fail => ⟨false, invs ++ [bq], outs, []⟩
      | .notFound => ⟨false, invs ++ [bq], outs, []⟩
  | false, none => ⟨false, invs, outs, []⟩
  | true, _ => ⟨final_success, invs, outs, []⟩

/-- `compress_pdf(input_path, output_path, target_size_mb=1.5,
max_quality=40, min_quality=5)`, lines 10-121.  `targetBytes` is
`target_size_mb * 1024 * 1024` (1572864 for the default) and `targetStr` the
printed form of `target_size_mb` ("1.5").  The loop runs from `max_quality`
down; a `FileNotFoundError` returns `False` immediately from inside the loop
(line 76); on the `break` of line 49 the move to the output path has happened;
then the post-loop code runs with `final_success` still `false` (the line 48
assignment targets the unused variable `success`). -/
def compress_pdf (env : Int → CmdResult) (inputPath : String)
    (targetBytes : Nat) (targetStr : String) (maxq minq : Int) :
    CompressResult :=
  let final_success := false
  let st := runLoop env targetBytes minq maxq none
  match st.outcome with
  | .toolMissing => ⟨false, st.invocations, [], []⟩
  | .brokeSuccess size =>
      postLoop env inputPath targetStr final_success st.best st.invocations
        [.renamed size]
  | .exhausted =>
      postLoop env inputPath targetStr final_success st.best st.invocations []

/-- What `process_pdf` (lines 124-139) observes while orchestrating one job:
`orchError` is an exception from the `mkdir` or the existence check (caught at
line 137), `outputAlreadyExists` is the check of line 130 firing, `proceed`
reaches the `compress_pdf` call of line 135. -/
inductive OrchEvent where
  | orchError
  | outputAlreadyExists
  | proceed
deriving DecidableEq, Repr

/-- `process_pdf(input_path, output_path)`, lines 124-139: create parent
directories, return `True` when the output already exists, otherwise return
what `compress_pdf` returns; any exception in this orchestration is caught
and turned into `False`. -/
def process_pdf (e : OrchEvent) (compressRetval : Bool) : Bool :=
  match e with
  | .orchError => false
  | .outputAlreadyExists => true
  | .proceed => compressRetval

/-- One discovered input file, as the walker of lines 164-174 sees it: its
input mtime, and whether a file already exists at the mirrored output path
together with that file's mtime (mtimes as integers; only the `>=`
comparison of line 170 matters). -/
structure FileInfo where
  relPath : String
  inMtime : Int
  outExists : Bool
  outMtime : Int
deriving DecidableEq, Repr

/-- The skip test of line 170:
`output_file.exists() and output_file.stat().st_mtime >= input_file.stat().st_mtime`. -/
def shouldSkip (f : FileInfo) : Bool :=
  f.outExists && decide (f.inMtime ≤ f.outMtime)

/-- The dispatch pass of lines 164-174: fold over the discovered files in
order, counting a skip for each up-to-date output and appending a submitted
future for every other file.  Returns `(skipped_count, futures)`. -/
def planFiles (files : List FileInfo) : Nat × List FileInfo :=
  files.foldl
    (fun acc f => if shouldSkip f then (acc.1 + 1, acc.2) else (acc.1, acc.2 ++ [f]))
    (0, [])

/-- What collecting one future at lines 176-189 observes: `ok` is
`future.result()` returning `True`, `err` is it returning `False`, `raised`
is `future.result()` raising (caught at line 187). -/
inductive TaskOutcome where
  | ok
  | err
  | raised
deriving DecidableEq, Repr

/-- The collection pass of lines 176-189: fold over the futures in completion
order, incrementing `processed_count` on a `True` result and `failed_count`
on a `False` result or on an exception.  Returns
`(processed_count, failed_count)`. -/
def countResults (outcome : FileInfo → TaskOutcome) (completion : List FileInfo) :
    Nat × Nat :=
  completion.foldl
    (fun acc f =>
      match outcome f with
      | .ok => (acc.1 + 1, acc.2)
      | .err => (acc.1, acc.2 + 1)
      | .raised => (acc.1, acc.2 + 1))
    (0, 0)

/-- The four numbers of the final summary printed at lines 191-195. -/
structure BatchResult where
  total : Nat
  processed : Nat
  failed : Nat
  skipped : Nat
deriving DecidableEq, Repr

/-- `find_and_compress_pdfs(source_dir, dest_dir, max_workers)`,
lines 141-195.  `sourceExists` is the check of line 148: when it fails the
function returns before any processing and before the summary (`none`).
`files` is the eager `list(source_path.glob(...))` of line 152, `outcome`
what each submitted task's future yields, and `completion` the order in which
`as_completed` delivers the futures (constrained to a permutation of the
submitted futures in the theorems).  `some r` carries the printed summary. -/
def find_and_compress_pdfs (sourceExists : Bool) (files : List FileInfo)
    (outcome : FileInfo → TaskOutcome) (completion : List FileInfo) :
    Option BatchResult :=
  if sourceExists = false then none
  else
    let plan := planFiles files
    let counts := countResults outcome completion
    some ⟨files.length, counts.1, counts.2, plan.1⟩

lemma qualities_nil {minq q : Int} (h : q < minq) : qualities minq q = [] := by
  rw [qualities]
  simp [h]

lemma qualities_cons {minq q : Int} (h : ¬ q < minq) :
    qualities minq q = q :: qualities minq (q - 5) := by
  rw [qualities]
  simp [h]

lemma qualities_5_40 : qualities 5 40 = [40, 35, 30, 25, 20, 15, 10, 5] := by
  simp [qualities]

lemma mem_qualities {minq q p : Int} (hp : p ∈ qualities minq q) :
    minq ≤ p ∧ p ≤ q := by
  by_cases h : q < minq
  · rw [qualities_nil h] at hp
    simp at hp
  · rw [qualities_cons h] at hp
    rcases List.mem_cons.mp hp with rfl | hp2
    · omega
    · have := mem_qualities hp2
      omega
termination_by (q + 5 - minq).toNat
decreasing_by omega

lemma runLoop_base {env : Int → CmdResult} {tb : Nat} {minq q : Int}
    {best : Option (Int × Nat)} (h : q < minq) :
    runLoop env tb minq q best = ⟨[], best, .exhausted⟩ := by
  rw [runLoop]
  simp [h]

lemma runLoop_ok_small {env : Int → CmdResult} {tb : Nat} {minq q : Int}
    {best : Option (Int × Nat)} {size : Nat} (h : ¬ q < minq)
    (he : env q = CmdResult.ok size) (hs : size ≤ tb) :
    runLoop env tb minq q best = ⟨[q], best, .brokeSuccess size⟩ := by
  rw [runLoop]
  simp [h, he, hs]

lemma runLoop_ok_big {env : Int → CmdResult} {tb : Nat} {minq q : Int}
    {best : Option (Int × Nat)} {size : Nat} (h : ¬ q < minq)
    (he : env q = CmdResult.ok size) (hs : ¬ size ≤ tb) :
    runLoop env tb minq q best =
      ⟨q :: (runLoop env tb minq (q - 5) (updBest best q size)).invocations,
       (runLoop env tb minq (q - 5) (updBest best q size)).best,
       (runLoop env tb minq (q - 5) (updBest best q size)).outcome⟩ := by
  rw [runLoop]
  simp [h, he, hs]

lemma runLoop_fail_step {env : Int → CmdResult} {tb : Nat} {minq q : Int}
    {best : Option (Int × Nat)} (h : ¬ q < minq) (he : env q = CmdResult.fail) :
    runLoop env tb minq q best =
      ⟨q :: (runLoop env tb minq (q - 5) best).invocations,
       (runLoop env tb minq (q - 5) best).best,
       (runLoop env tb minq (q - 5) best).outcome⟩ := by
  rw [runLoop]
  simp [h, he]

lemma runLoop_missing {env : Int → CmdResult} {tb : Nat} {minq q : Int}
    {best : Option (Int × Nat)} (h : ¬ q < minq)
    (he : env q = CmdResult.notFound) :
    runLoop env tb minq q best = ⟨[q], best, .toolMissing⟩ := by
  rw [runLoop]
  simp [h, he]

lemma runLoop_all_fail {env : Int → CmdResult} {tb : Nat} {minq : Int}
    (q : Int) (H : ∀ p ∈ qualities minq q, env p = CmdResult.fail)
    (best : Option (Int × Nat)) :
    runLoop env tb minq q best = ⟨qualities minq q, best, .exhausted⟩ := by
  by_cases h : q < minq
  · rw [runLoop_base h, qualities_nil h]
  · have hq : env q = CmdResult.fail := by
      refine H q ?_
      rw [qualities_cons h]
      exact List.mem_cons_self _ _
    rw [runLoop_fail_step h hq,
      runLoop_all_fail (q - 5)
        (fun p hp => H p (by rw [qualities_cons h]; exact List.mem_cons_of_mem _ hp))
        best,
      qualities_cons h]
termination_by (q + 5 - minq).toNat
decreasing_by omega

lemma runLoop_all_oversized {env : Int → CmdResult} {tb : Nat} {minq : Int}
    (sz : Int → Nat) (q : Int)
    (H : ∀ p ∈ qualities minq q, env p = CmdResult.ok (sz p) ∧ tb < sz p)
    (best : Option (Int × Nat)) :
    runLoop env tb minq q best =
      ⟨qualities minq q,
       (qualities minq q).foldl (fun b p => updBest b p (sz p)) best,
       .exhausted⟩ := by
  by_cases h : q < minq
  · rw [runLoop_base h, qualities_nil h]
    rfl
  · obtain ⟨he, hs⟩ := H q (by rw [qualities_cons h]; exact List.mem_cons_self _ _)
    rw [runLoop_ok_big h he (by omega),
      runLoop_all_oversized sz (q - 5)
        (fun p hp => H p (by rw [qualities_cons h]; exact List.mem_cons_of_mem _ hp))
        (updBest best q (sz q)),
      qualities_cons h]
    simp
termination_by (q + 5 - minq).toNat
decreasing_by omega

lemma runLoop_trunc {env : Int → CmdResult} {tb : Nat} {minq : Int}
    (q : Int) (best : Option (Int × Nat)) :
    ∃ t, qualities minq q = (runLoop env tb minq q best).invocations ++ t ∧
      ((runLoop env tb minq q best).outcome = LoopOutcome.exhausted → t = []) := by
  by_cases h : q < minq
  · refine ⟨[], ?_, fun _ => rfl⟩
    rw [runLoop_base h, qualities_nil h]
    rfl
  · cases he : env q with
    | ok size =>
        by_cases hs : size ≤ tb
        · refine ⟨qualities minq (q - 5), ?_, ?_⟩
          · rw [runLoop_ok_small h he hs, qualities_cons h]
            rfl
          · rw [runLoop_ok_small h he hs]
            intro hc
            exact absurd hc (by simp)
        · obtain ⟨t, ht1, ht2⟩ :=
            @runLoop_trunc env tb minq (q - 5) (updBest best q size)
          refine ⟨t, ?_, ?_⟩
          · rw [runLoop_ok_big h he hs, qualities_cons h]
            simp [ht1]
          · rw [runLoop_ok_big h he hs]
            exact ht2
    | fail =>
        obtain ⟨t, ht1, ht2⟩ :=
          @runLoop_trunc env tb minq (q - 5) best
        refine ⟨t, ?_, ?_⟩
        · rw [runLoop_fail_step h he, qualities_cons h]
          simp [ht1]
        · rw [runLoop_fail_step h he]
          exact ht2
    | notFound =>
        refine ⟨qualities minq (q - 5), ?_, ?_⟩
        · rw [runLoop_missing h he, qualities_cons h]
          rfl
        · rw [runLoop_missing h he]
          intro hc
          exact absurd hc (by simp)
termination_by (q + 5 - minq).toNat
decreasing_by all_goals omega

lemma runLoop_abort {env : Int → CmdResult} {tb : Nat} {minq : Int}
    (q q0 : Int) (hmem : q0 ∈ qualities minq q)
    (habove : ∀ p ∈ qualities minq q, q0 < p →
      env p = CmdResult.fail ∨ ∃ s, env p = CmdResult.ok s ∧ ¬ s ≤ tb)
    (hq0 : env q0 = CmdResult.notFound) (best : Option (Int × Nat)) :
    ∃ b2, runLoop env tb minq q best =
      ⟨((qualities minq q).takeWhile fun p => decide (q0 < p)) ++ [q0],
       b2, .toolMissing⟩ := by
  by_cases h : q < minq
  · rw [qualities_nil h] at hmem
    simp at hmem
  · by_cases hqq : q = q0
    · subst hqq
      refine ⟨best, ?_⟩
      rw [runLoop_missing h hq0, qualities_cons h]
      simp
    · have hle : q0 ≤ q := (mem_qualities hmem).2
      have hlt : q0 < q := by omega
      have hmem2 : q0 ∈ qualities minq (q - 5) := by
        rw [qualities_cons h] at hmem
        rcases List.mem_cons.mp hmem with h2 | h2
        · exact absurd h2.symm hqq
        · exact h2
      have habove2 : ∀ p ∈ qualities minq (q - 5), q0 < p →
          env p = CmdResult.fail ∨ ∃ s, env p = CmdResult.ok s ∧ ¬ s ≤ tb :=
        fun p hp => habove p (by rw [qualities_cons h]; exact List.mem_cons_of_mem _ hp)
      rcases habove q (by rw [qualities_cons h]; exact List.mem_cons_self _ _) hlt with
        hfq | ⟨s, hoq, hbig⟩
      · obtain ⟨b2, hrec⟩ := runLoop_abort (q - 5) q0 hmem2 habove2 hq0 best
        refine ⟨b2, ?_⟩
        rw [runLoop_fail_step h hfq, hrec, qualities_cons h]
        simp [hlt]
      · obtain ⟨b2, hrec⟩ :=
          runLoop_abort (q - 5) q0 hmem2 habove2 hq0 (updBest best q s)
        refine ⟨b2, ?_⟩
        rw [runLoop_ok_big h hoq hbig, hrec, qualities_cons h]
        simp [hlt]
termination_by (q + 5 - minq).toNat
decreasing_by all_goals omega

lemma foldl_updBest_some (sz : Int → Nat) :
    ∀ (l : List Int) (bq : Int) (bs : Nat), bs = sz bq →
      ∃ bq2 bs2,
        l.foldl (fun b p => updBest b p (sz p)) (some (bq, bs)) = some (bq2, bs2) ∧
        bs2 = sz bq2 ∧ (bq2 = bq ∨ bq2 ∈ l) ∧ bs2 ≤ bs ∧ ∀ p ∈ l, bs2 ≤ sz p := by
  intro l
  induction l with
  | nil =>
      intro bq bs hbs
      exact ⟨bq, bs, rfl, hbs, Or.inl rfl, le_refl _, by simp⟩
  | cons p l ih =>
      intro bq bs hbs
      simp only [List.foldl_cons]
      by_cases hc : sz p < bs
      · rw [show updBest (some (bq, bs)) p (sz p) = some (p, sz p) by simp [updBest, hc]]
        obtain ⟨bq2, bs2, heq, h1, h2, h3, h4⟩ := ih p (sz p) rfl
        refine ⟨bq2, bs2, heq, h1, ?_, by omega, ?_⟩
        · rcases h2 with rfl | h2
          · exact Or.inr (List.mem_cons_self _ _)
          · exact Or.inr (List.mem_cons_of_mem _ h2)
        · intro p2 hp2
          rcases List.mem_cons.mp hp2 with rfl | hp2
          · exact h3
          · exact h4 p2 hp2
      · rw [show updBest (some (bq, bs)) p (sz p) = some (bq, bs) by simp [updBest, hc]]
        obtain ⟨bq2, bs2, heq, h1, h2, h3, h4⟩ := ih bq bs hbs
        refine ⟨bq2, bs2, heq, h1, ?_, h3, ?_⟩
        · rcases h2 with rfl | h2
          · exact Or.inl rfl
          · exact Or.inr (List.mem_cons_of_mem _ h2)
        · intro p2 hp2
          rcases List.mem_cons.mp hp2 with rfl | hp2
          · omega
          · exact h4 p2 hp2

lemma foldl_updBest_none (sz : Int → Nat) (l : List Int) (hne : l ≠ []) :
    ∃ bq bs, l.foldl (fun b p => updBest b p (sz p)) none = some (bq, bs) ∧
      bs = sz bq ∧ bq ∈ l ∧ ∀ p ∈ l, bs ≤ sz p := by
  cases l with
  | nil => exact absurd rfl hne
  | cons q l =>
      simp only [List.foldl_cons]
      rw [show updBest none q (sz q) = some (q, sz q) by simp [updBest]]
      obtain ⟨bq2, bs2, heq, h1, h2, h3, h4⟩ := foldl_updBest_some sz l q (sz q) rfl
      refine ⟨bq2, bs2, heq, h1, ?_, ?_⟩
      · rcases h2 with rfl | h2
        · exact List.mem_cons_self _ _
        · exact List.mem_cons_of_mem _ h2
      · intro p hp
        rcases List.mem_cons.mp hp with rfl | hp
        · exact h3
        · exact h4 p hp

lemma planFiles_eq (files : List FileInfo) :
    planFiles files =
      ((files.filter shouldSkip).length, files.filter fun f => !(shouldSkip f)) := by
  have main : ∀ (l : List FileInfo) (a : Nat) (b : List FileInfo),
      l.foldl
        (fun acc f => if shouldSkip f then (acc.1 + 1, acc.2) else (acc.1, acc.2 ++ [f]))
        (a, b) =
      (a + (l.filter shouldSkip).length, b ++ l.filter fun f => !(shouldSkip f)) := by
    intro l
    induction l with
    | nil => simp
    | cons f l ih =>
        intro a b
        by_cases hf : shouldSkip f
        · simp only [List.foldl_cons, hf, if_true, ih, List.filter_cons]
          simp [hf]
          omega
        · simp only [List.foldl_cons, hf, if_false, ih, List.filter_cons]
          simp [hf]
  have := main files 0 []
  simpa [planFiles] using this

lemma countResults_eq (outcome : FileInfo → TaskOutcome) (l : List FileInfo) :
    countResults outcome l =
      ((l.filter fun f => decide (outcome f = TaskOutcome.ok)).length,
       (l.filter fun f => decide (¬ outcome f = TaskOutcome.ok)).length) := by
  have main : ∀ (l : List FileInfo) (a b : Nat),
      l.foldl
        (fun acc f =>
          match outcome f with
          | .ok => (acc.1 + 1, acc.2)
          | .err => (acc.1, acc.2 + 1)
          | .raised => (acc.1, acc.2 + 1))
        (a, b) =
      (a + (l.filter fun f => decide (outcome f = TaskOutcome.ok)).length,
       b + (l.filter fun f => decide (¬ outcome f = TaskOutcome.ok)).length) := by
    intro l
    induction l with
    | nil => simp
    | cons f l ih =>
        intro a b
        simp only [List.foldl_cons, List.filter_cons]
        cases ho : outcome f with
        | ok => simp [ho, ih]; omega
        | err => simp [ho, ih]; omega
        | raised => simp [ho, ih]; omega
  have := main l 0 0
  simpa [countResults] using this

lemma filter_length_split {α : Type} (p : α → Bool) (l : List α) :
    (l.filter p).length + (l.filter fun a => !(p a)).length = l.length := by
  induction l with
  | nil => simp
  | cons a l ih =>
      by_cases ha : p a
      · simp [List.filter_cons, ha]
        omega
      · simp [List.filter_cons, ha]
        omega


lemma compress_outputs_cases (env : Int → CmdResult) (inputPath targetStr : String)
    (tb : Nat) (maxq minq : Int) :
    (compress_pdf env inputPath tb targetStr maxq minq).outputs = [] ∨
    (∃ s, (compress_pdf env inputPath tb targetStr maxq minq).outputs =
      [OutputEvent.renamed s]) ∨
    (∃ s, (compress_pdf env inputPath tb targetStr maxq minq).outputs =
      [OutputEvent.written s]) ∨
    (∃ s s2, (compress_pdf env inputPath tb targetStr maxq minq).outputs =
      [OutputEvent.renamed s, OutputEvent.written s2]) := by
  rcases hst : runLoop env tb minq maxq none with ⟨invs, best, outc⟩
  cases outc with
  | toolMissing =>
      refine Or.inl ?_
      simp [compress_pdf, hst]
  | brokeSuccess size =>
      rcases best with _ | ⟨bq, bs⟩
      · refine Or.inr (Or.inl ⟨size, ?_⟩)
        simp [compress_pdf, hst, postLoop]
      · cases henv : env bq with
        | ok s2 =>
            refine Or.inr (Or.inr (Or.inr ⟨size, s2, ?_⟩))
            simp [compress_pdf, hst, postLoop, henv]
        | fail =>
            refine Or.inr (Or.inl ⟨size, ?_⟩)
            simp [compress_pdf, hst, postLoop, henv]
        | notFound =>
            refine Or.inr (Or.inl ⟨size, ?_⟩)
            simp [compress_pdf, hst, postLoop, henv]
  | exhausted =>
      rcases best with _ | ⟨bq, bs⟩
      · refine Or.inl ?_
        simp [compress_pdf, hst, postLoop]
      · cases henv : env bq with
        | ok s2 =>
            refine Or.inr (Or.inr (Or.inl ⟨s2, ?_⟩))
            simp [compress_pdf, hst, postLoop, henv]
        | fail =>
            refine Or.inl ?_
            simp [compress_pdf, hst, postLoop, henv]
        | notFound =>
            refine Or.inl ?_
            simp [compress_pdf, hst, postLoop, henv]

/-- Claim C1: a job whose quality-40 first attempt exits 0 with a 1000-byte
output (within the 1572864-byte target) makes exactly one external
invocation, moves the temporary file to the final output path and stops the
loop — but `compress_pdf` returns `False`, not the success the claim states:
`final_success` (initialised at line 18 with the comment that it tracks
whether the target was achieved, and returned at line 121) is never set,
because line 48 assigns the distinct dead variable `success`, so control
falls into the could-not-compress branch of lines 117-119. -/
theorem claim_C1 :
    compress_pdf (fun q => if q = 40 then CmdResult.ok 1000 else CmdResult.fail)
      "doc.pdf" 1572864 "1.5" 40 5 =
    ⟨false, [40], [OutputEvent.renamed 1000], []⟩ := by
  simp [compress_pdf, runLoop, postLoop]

/-- Claim C2: with quality 40 exiting 0 at 2000000 bytes (oversized) and
quality 35 exiting 0 at 1000 bytes (within target), the loop succeeds at 35
and moves the temporary file to the output path — yet a third external
invocation at the remembered quality 40 still happens, overwriting the
successful output with the oversized best-effort file and appending a
best-effort log line, because `final_success` is never set to `True`
(line 48 assigns the dead variable `success`), so the guard of line 96 fires
even after an in-loop success.  The claim states no further invocation is
made after an in-loop success. -/
theorem claim_C2 :
    compress_pdf
      (fun q => if q = 40 then CmdResult.ok 2000000
                else if q = 35 then CmdResult.ok 1000 else CmdResult.fail)
      "doc.pdf" 1572864 "1.5" 40 5 =
    ⟨true, [40, 35, 40], [OutputEvent.renamed 1000, OutputEvent.written 2000000],
     [bestEffortLine "doc.pdf" 2000000 "1.5"]⟩ := by
  simp [compress_pdf, runLoop, postLoop, updBest]

/-- Claim C3, counterexample: when every quality level exits 0 but oversized
(2000000 bytes against the 1572864-byte target), the final output file is
produced by the best-effort invocation writing directly to the final path
(line 104), not by an atomic rename from a temporary file, refuting the
claim's "it is produced by an atomic rename from a temporary file". -/
theorem claim_C3_cex :
    (compress_pdf (fun _ => CmdResult.ok 2000000) "doc.pdf" 1572864 "1.5"
        40 5).outputs = [OutputEvent.written 2000000] ∧
    OutputEvent.isRenamed (OutputEvent.written 2000000) = false := by
  constructor
  · simp [compress_pdf, runLoop, postLoop, updBest]
  · rfl

/-- Claim C3, amended: for every job the final output path receives at most
one rename from the temporary file and at most one direct write — an in-loop
success is produced by the atomic rename of line 47, a best-effort output by
the direct write of line 104 — and the batch walker never dispatches a job
whose existing output is up to date (line 170). -/
theorem claim_C3 (env : Int → CmdResult) (inputPath targetStr : String)
    (tb : Nat) (maxq minq : Int) :
    ((compress_pdf env inputPath tb targetStr maxq minq).outputs.filter
        OutputEvent.isRenamed).length ≤ 1 ∧
    ((compress_pdf env inputPath tb targetStr maxq minq).outputs.filter
        fun e => !(OutputEvent.isRenamed e)).length ≤ 1 ∧
    ∀ files : List FileInfo,
      (planFiles files).2 = files.filter fun f => !(shouldSkip f) := by
  refine ⟨?_, ?_, fun files => by rw [planFiles_eq]⟩
  all_goals
    rcases compress_outputs_cases env inputPath targetStr tb maxq minq with
      h | ⟨s, h⟩ | ⟨s, h⟩ | ⟨s, s2, h⟩ <;>
    simp [h, OutputEvent.isRenamed]

/-- Claim C4: when every attempt at every quality level exits 0 but exceeds
the target, exactly one extra invocation happens at a quality that produced
the smallest observed size, it writes directly to the final output path,
exactly one line in the fixed best-effort format is appended to the log, and
the job is reported as a success. -/
theorem claim_C4 (env : Int → CmdResult) (sz : Int → Nat)
    (inputPath targetStr : String) (tb : Nat) (maxq minq : Int)
    (hle : minq ≤ maxq)
    (H : ∀ p ∈ qualities minq maxq, env p = CmdResult.ok (sz p) ∧ tb < sz p) :
    ∃ bq, bq ∈ qualities minq maxq ∧ (∀ p ∈ qualities minq maxq, sz bq ≤ sz p) ∧
      compress_pdf env inputPath tb targetStr maxq minq =
        ⟨true, qualities minq maxq ++ [bq], [OutputEvent.written (sz bq)],
         [bestEffortLine inputPath (sz bq) targetStr]⟩ := by
  have hne : qualities minq maxq ≠ [] := by
    rw [qualities_cons (by omega)]
    simp
  obtain ⟨bq, bs, hfold, hbs, hmem, hmin⟩ :=
    foldl_updBest_none sz (qualities minq maxq) hne
  subst hbs
  refine ⟨bq, hmem, hmin, ?_⟩
  have hloop := @runLoop_all_oversized env tb minq sz maxq H none
  have henv : env bq = CmdResult.ok (sz bq) := (H bq hmem).1
  simp [compress_pdf, hloop, hfold, postLoop, henv]

/-- Witness for claim C4: all eight attempts exit 0 oversized, quality 10
uniquely smallest at 1600000 bytes; the extra invocation happens at 10,
writes directly, logs one best-effort line, and the job returns `True`. -/
theorem claim_C4_witness :
    compress_pdf (fun q => CmdResult.ok (if q = 10 then 1600000 else 2000000))
      "doc.pdf" 1572864 "1.5" 40 5 =
    ⟨true, [40, 35, 30, 25, 20, 15, 10, 5, 10], [OutputEvent.written 1600000],
     [bestEffortLine "doc.pdf" 1600000 "1.5"]⟩ := by
  obtain ⟨bq, hmem, hmin, heq⟩ :=
    claim_C4 (fun q => CmdResult.ok (if q = 10 then 1600000 else 2000000))
      (fun q => if q = 10 then 1600000 else 2000000) "doc.pdf" "1.5" 1572864 40 5
      (by norm_num)
      (fun p _ => ⟨rfl, by by_cases h : p = 10 <;> norm_num [h]⟩)
  have h10 : (10 : Int) ∈ qualities 5 40 := by
    rw [qualities_5_40]
    decide
  have hm := hmin 10 h10
  have hbq : bq = 10 := by
    by_contra hne
    simp only [if_neg hne, if_pos rfl] at hm
    norm_num at hm
  subst hbq
  rw [qualities_5_40] at heq
  simpa using heq

/-- Claim C5: when every invocation across the full quality range exits
nonzero, `compress_pdf` returns `False`, writes nothing to the final output
path, and appends no log line. -/
theorem claim_C5 (env : Int → CmdResult) (inputPath targetStr : String)
    (tb : Nat) (maxq minq : Int)
    (H : ∀ p ∈ qualities minq maxq, env p = CmdResult.fail) :
    compress_pdf env inputPath tb targetStr maxq minq =
      ⟨false, qualities minq maxq, [], []⟩ := by
  have h := @runLoop_all_fail env tb minq maxq H none
  simp [compress_pdf, h, postLoop]

/-- Witness for claim C5: every invocation fails; the job returns `False`
with all eight qualities attempted, no output write and no log line. -/
theorem claim_C5_witness :
    compress_pdf (fun _ => CmdResult.fail) "doc.pdf" 1572864 "1.5" 40 5 =
      ⟨false, [40, 35, 30, 25, 20, 15, 10, 5], [], []⟩ := by
  have h := claim_C5 (fun _ => CmdResult.fail) "doc.pdf" "1.5" 1572864 40 5
    (fun p _ => rfl)
  rw [qualities_5_40] at h
  exact h

/-- Claim C6: when the external command turns out to be missing at the
attempt at quality `q0` (every higher quality having exited nonzero or
produced an oversized output, so the loop reaches `q0`), `compress_pdf`
aborts at once and returns `False` for the job: the invoked
qualities are exactly those above `q0` followed by `q0` itself — no lower
quality level is tried — with no output write and no log line; and the batch
driver still completes with a summary whatever the per-job results are, so
the failure does not abort the batch. -/
theorem claim_C6 (env : Int → CmdResult) (inputPath targetStr : String)
    (tb : Nat) (maxq minq q0 : Int)
    (hmem : q0 ∈ qualities minq maxq)
    (habove : ∀ p ∈ qualities minq maxq, q0 < p →
      env p = CmdResult.fail ∨ ∃ s, env p = CmdResult.ok s ∧ ¬ s ≤ tb)
    (hq0 : env q0 = CmdResult.notFound) :
    compress_pdf env inputPath tb targetStr maxq minq =
      ⟨false, ((qualities minq maxq).takeWhile fun p => decide (q0 < p)) ++ [q0],
       [], []⟩ ∧
    ∀ (files completion : List FileInfo) (outcome : FileInfo → TaskOutcome),
      find_and_compress_pdfs true files outcome completion =
        some ⟨files.length, (countResults outcome completion).1,
              (countResults outcome completion).2, (planFiles files).1⟩ := by
  constructor
  · obtain ⟨b2, h⟩ := @runLoop_abort env tb minq maxq q0 hmem habove hq0 none
    simp [compress_pdf, h]
  · intro files completion outcome
    rfl

/-- Witness for claim C6: quality 40 exits nonzero, the attempt at quality 35
finds the command missing; the job stops there with `False`, qualities 30 and
below untried, nothing written, nothing logged. -/
theorem claim_C6_witness :
    compress_pdf (fun q => if q = 40 then CmdResult.fail else CmdResult.notFound)
      "doc.pdf" 1572864 "1.5" 40 5 = ⟨false, [40, 35], [], []⟩ := by
  have h := (claim_C6
    (fun q => if q = 40 then CmdResult.fail else CmdResult.notFound)
    "doc.pdf" "1.5" 1572864 40 5 35
    (by rw [qualities_5_40]; decide)
    (by rw [qualities_5_40]; intro p hp hlt; fin_cases hp <;> first | exact Or.inl rfl | omega)
    (by decide)).1
  rw [qualities_5_40] at h
  exact h

/-- Claim C7: with `max_quality = 40` and `min_quality = 5` the quality
sequence of the search loop is exactly 40, 35, 30, 25, 20, 15, 10, 5 in
strictly descending order, and for any behaviour of the external command the
loop's invocations are an initial segment of that sequence, the full sequence
whenever the loop runs to exhaustion (i.e. it is truncated only by an early
success or the fatal command-missing failure). -/
theorem claim_C7 :
    qualities 5 40 = [40, 35, 30, 25, 20, 15, 10, 5] ∧
    List.Chain' (fun a b => b < a) (qualities 5 40) ∧
    ∀ (env : Int → CmdResult) (tb : Nat), ∃ t,
      qualities 5 40 = (runLoop env tb 5 40 none).invocations ++ t ∧
      ((runLoop env tb 5 40 none).outcome = LoopOutcome.exhausted → t = []) := by
  refine ⟨qualities_5_40, ?_, ?_⟩
  · rw [qualities_5_40]
    simp [List.chain'_cons]
  · intro env tb
    exact @runLoop_trunc env tb 5 40 none

/-- Witness for claim C7: the concrete quality sequence. -/
theorem claim_C7_witness :
    qualities 5 40 = [40, 35, 30, 25, 20, 15, 10, 5] :=
  claim_C7.1

/-- Claim C8: the dispatch pass counts a discovered file as skipped, and
submits no task for it, exactly when a file already exists at its mirrored
output path with a modification time at least the input's (line 170);
equivalently the skipped count is the number of such files and the submitted
futures are exactly the other files, in discovery order. -/
theorem claim_C8 (files : List FileInfo) :
    (planFiles files).1 =
      (files.filter fun f =>
        f.outExists && decide (f.inMtime ≤ f.outMtime)).length ∧
    (planFiles files).2 =
      files.filter fun f => !(f.outExists && decide (f.inMtime ≤ f.outMtime)) := by
  rw [planFiles_eq]
  exact ⟨rfl, rfl⟩

/-- Witness for claim C8: of three discovered files, the one whose output
exists and is newer is skipped; the missing-output one and the stale one are
dispatched, in order. -/
theorem claim_C8_witness :
    (planFiles [⟨"a.pdf", 10, true, 20⟩, ⟨"b.pdf", 10, false, 0⟩,
                ⟨"c.pdf", 30, true, 20⟩]).1 = 1 ∧
    (planFiles [⟨"a.pdf", 10, true, 20⟩, ⟨"b.pdf", 10, false, 0⟩,
                ⟨"c.pdf", 30, true, 20⟩]).2 =
      [⟨"b.pdf", 10, false, 0⟩, ⟨"c.pdf", 30, true, 20⟩] := by
  have h := claim_C8 [⟨"a.pdf", 10, true, 20⟩, ⟨"b.pdf", 10, false, 0⟩,
    ⟨"c.pdf", 30, true, 20⟩]
  rw [h.1, h.2]
  exact ⟨rfl, rfl⟩

/-- Claim C9, counterexample: a run whose source directory does not exist
returns at line 150 before the summary, so the four-number summary is not
printed on every run. -/
theorem claim_C9_cex :
    find_and_compress_pdfs false [⟨"a.pdf", 10, false, 0⟩]
      (fun _ => TaskOutcome.ok) [] = none := rfl

/-- Claim C9, amended: an exception in a task's own orchestration logic is
caught and the task reports failure; provided the source directory exists,
the batch completes with the four-number summary whatever the tasks do, the
failed counter is exactly the number of collected futures that returned
`False` or raised, the processed counter the number that returned `True`,
and every submitted future is collected. -/
theorem claim_C9 (files completion : List FileInfo)
    (outcome : FileInfo → TaskOutcome)
    (hperm : List.Perm completion (planFiles files).2) :
    process_pdf OrchEvent.orchError true = false ∧
    process_pdf OrchEvent.orchError false = false ∧
    find_and_compress_pdfs true files outcome completion =
      some ⟨files.length,
            (completion.filter fun f => decide (outcome f = TaskOutcome.ok)).length,
            (completion.filter fun f => decide (¬ outcome f = TaskOutcome.ok)).length,
            (files.filter shouldSkip).length⟩ ∧
    completion.length = (planFiles files).2.length := by
  refine ⟨rfl, rfl, ?_, hperm.length_eq⟩
  simp [find_and_compress_pdfs, countResults_eq, planFiles_eq]

/-- Witness for claim C9: source exists, one file skipped, two dispatched and
collected out of order, one returning `True` and one raising; the summary is
printed with processed = 1, failed = 1, skipped = 1. -/
theorem claim_C9_witness :
    process_pdf OrchEvent.orchError true = false ∧
    find_and_compress_pdfs true
      [⟨"a.pdf", 10, true, 20⟩, ⟨"b.pdf", 10, false, 0⟩, ⟨"c.pdf", 30, true, 20⟩]
      (fun f => if f.relPath = "b.pdf" then TaskOutcome.ok else TaskOutcome.raised)
      [⟨"c.pdf", 30, true, 20⟩, ⟨"b.pdf", 10, false, 0⟩] =
      some ⟨3, 1, 1, 1⟩ := by
  obtain ⟨h1, h2, h3, h4⟩ := claim_C9
    [⟨"a.pdf", 10, true, 20⟩, ⟨"b.pdf", 10, false, 0⟩, ⟨"c.pdf", 30, true, 20⟩]
    [⟨"c.pdf", 30, true, 20⟩, ⟨"b.pdf", 10, false, 0⟩]
    (fun f => if f.relPath = "b.pdf" then TaskOutcome.ok else TaskOutcome.raised)
    (by decide)
  refine ⟨h1, ?_⟩
  rw [h3]
  rfl

lemma countResults_sum (outcome : FileInfo → TaskOutcome)
    (l : List FileInfo) :
    (countResults outcome l).1 + (countResults outcome l).2 = l.length := by
  have main : ∀ (l : List FileInfo) (a b : Nat),
      ((l.foldl
        (fun acc f =>
          match outcome f with
          | .ok => (acc.1 + 1, acc.2)
          | .err => (acc.1, acc.2 + 1)
          | .raised => (acc.1, acc.2 + 1)) (a, b)).1 +
       (l.foldl
        (fun acc f =>
          match outcome f with
          | .ok => (acc.1 + 1, acc.2)
          | .err => (acc.1, acc.2 + 1)
          | .raised => (acc.1, acc.2 + 1)) (a, b)).2) = a + b + l.length := by
    intro l
    induction l with
    | nil => intro a b; simp
    | cons f l ih =>
        intro a b
        simp only [List.foldl_cons]
        cases ho : outcome f <;> simp only [ho, List.length_cons] <;>
          rw [ih] <;> omega
  have h := main l 0 0
  simpa [countResults] using h

lemma planFiles_sum (files : List FileInfo) :
    (planFiles files).1 + (planFiles files).2.length = files.length := by
  have main : ∀ (l : List FileInfo) (a : Nat) (b : List FileInfo),
      ((l.foldl
        (fun acc f =>
          if shouldSkip f then (acc.1 + 1, acc.2) else (acc.1, acc.2 ++ [f]))
        (a, b)).1 +
       (l.foldl
        (fun acc f =>
          if shouldSkip f then (acc.1 + 1, acc.2) else (acc.1, acc.2 ++ [f]))
        (a, b)).2.length) = a + b.length + l.length := by
    intro l
    induction l with
    | nil => intro a b; simp
    | cons f l ih =>
        intro a b
        simp only [List.foldl_cons]
        by_cases hf : shouldSkip f
        · simp only [hf, if_true, List.length_cons]
          rw [ih]
          omega
        · simp only [hf, Bool.false_eq_true, if_false, List.length_cons]
          rw [ih]
          simp only [List.length_append, List.length_cons, List.length_nil]
          omega
  have h := main files 0 []
  simpa [planFiles] using h

/-- Claim C10: with the source directory present, every discovered file is
either counted skipped or submitted as one task, each collected future
increments exactly one of the processed or failed counters, and the printed
summary satisfies processed + failed + skipped = total files found. -/
theorem claim_C10 (files completion : List FileInfo)
    (outcome : FileInfo → TaskOutcome)
    (hperm : List.Perm completion (planFiles files).2) :
    find_and_compress_pdfs true files outcome completion =
      some ⟨files.length, (countResults outcome completion).1,
            (countResults outcome completion).2, (planFiles files).1⟩ ∧
    (countResults outcome completion).1 + (countResults outcome completion).2 +
      (planFiles files).1 = files.length := by
  refine ⟨rfl, ?_⟩
  have h1 := countResults_sum outcome completion
  have h2 := hperm.length_eq
  have h3 := planFiles_sum files
  omega

/-- Witness for claim C10: three files found, one skipped, two collected (one
success, one failure): 1 + 1 + 1 = 3. -/
theorem claim_C10_witness :
    find_and_compress_pdfs true
      [⟨"x.pdf", 5, true, 9⟩, ⟨"y.pdf", 5, false, 0⟩, ⟨"z.pdf", 9, true, 5⟩]
      (fun f => if f.relPath = "y.pdf" then TaskOutcome.ok else TaskOutcome.err)
      [⟨"z.pdf", 9, true, 5⟩, ⟨"y.pdf", 5, false, 0⟩] =
      some ⟨3, 1, 1, 1⟩ := by
  obtain ⟨h1, h2⟩ := claim_C10
    [⟨"x.pdf", 5, true, 9⟩, ⟨"y.pdf", 5, false, 0⟩, ⟨"z.pdf", 9, true, 5⟩]
    [⟨"z.pdf", 9, true, 5⟩, ⟨"y.pdf", 5, false, 0⟩]
    (fun f => if f.relPath = "y.pdf" then TaskOutcome.ok else TaskOutcome.err)
    (by decide)
  rw [h1]
  rfl
